import Mathlib

/-!
Verification of the IQN optimizer core
(`src/mlpack/core/optimizers/iqn/iqn_impl.hpp`, `IQN::Optimize`).

The embedding works over an arbitrary linearly ordered field `K` (so every
theorem in particular holds over the exact real arithmetic the spec states its
properties in, while concrete witnesses can be evaluated over `ℚ`).

* Vectors of length `d` model the vectorised iterate (`iterate.n_elem = d`),
  matrices are `d × d`.
* The cubes `y`, `t`, `Q` of the source are functions `Fin n → _`
  (per-component gradient, last point, local curvature).
* The aggregate quantities `B`, `u`, `g` and the iterate are the remaining
  mutable state of `IQN::Optimize`, collected in `IQNState`.
* Calls to the decomposable objective (`function.Gradient`,
  `function.Evaluate`) are recorded in an explicit event trace, so that claims
  about "exactly n gradient evaluations" and "no gradient evaluation on a
  skipped step" become statements about the trace.
* `std::isnan(x) || std::isinf(x)` on IEEE doubles has no counterpart in exact
  field arithmetic; the run model therefore takes the non-finiteness test as an
  abstract boolean predicate `nonFinite : K → Bool`, exactly at the place the
  source calls `std::isnan(overallObjective) || std::isinf(overallObjective)`.
-/

open Matrix

/-- Vectors of length `d` over `K` (the vectorised `arma::mat` of `d` elements). -/
abbrev Vec (K : Type) (d : ℕ) := Fin d → K

/-- Square `d × d` matrices over `K`. -/
abbrev Mat (K : Type) (d : ℕ) := Matrix (Fin d) (Fin d) K

/-- The decomposable objective consumed by the optimizer:
`NumFunctions` is the type-level `n`; `gradient x i` models
`function.Gradient(x, i, out)` and `evaluate x i` models
`function.Evaluate(x, i)`. -/
structure Objective (K : Type) (d n : ℕ) where
  gradient : Vec K d → Fin n → Vec K d
  evaluate : Vec K d → Fin n → K

/-- One recorded call to the external objective. -/
inductive Event (K : Type) (d n : ℕ) where
  | gradCall (x : Vec K d) (i : Fin n)
  | evalCall (x : Vec K d) (i : Fin n)
deriving DecidableEq

/-- Whether an event is an `Evaluate` call. -/
def Event.isEval {K : Type} {d n : ℕ} : Event K d n → Bool
  | .evalCall _ _ => true
  | .gradCall _ _ => false

/-- Whether an event is a `Gradient` call. -/
def Event.isGrad {K : Type} {d n : ℕ} : Event K d n → Bool
  | .evalCall _ _ => false
  | .gradCall _ _ => true

/-- Number of `Evaluate` calls in a trace. -/
def numEvalCalls {K : Type} {d n : ℕ} (tr : List (Event K d n)) : ℕ :=
  (tr.filter Event.isEval).length

/-- Number of `Gradient` calls in a trace. -/
def numGradCalls {K : Type} {d n : ℕ} (tr : List (Event K d n)) : ℕ :=
  (tr.filter Event.isGrad).length

/-- The mutable state of `IQN::Optimize` between inner steps:
`y i`, `t i`, `Q i` are the slices of the cubes `y`, `t`, `Q`
(last gradient, last point and local curvature of component `i`);
`B` is the aggregate Hessian approximation, `u` the aggregate
Hessian-variable product, `g` the aggregate gradient, and `iterate` the
current iterate (`iterateVec`, the vectorised view of `iterate`). -/
structure IQNState (K : Type) (d n : ℕ) where
  y : Fin n → Vec K d
  t : Fin n → Vec K d
  Q : Fin n → Mat K d
  B : Mat K d
  u : Vec K d
  g : Vec K d
  iterate : Vec K d
deriving DecidableEq

/-- Termination cause of a run, per the three return points of the source. -/
inductive Outcome where
  | numericalFailure
  | converged
  | maxIterationsReached
deriving DecidableEq

/-- Result of the outer loop: final state, the value of `overallObjective`
that is returned, the termination cause, and the trace of objective calls. -/
structure RunResult (K : Type) (d n : ℕ) where
  state : IQNState K d n
  objective : K
  outcome : Outcome
  trace : List (Event K d n)

section Model

variable {K : Type} [LinearOrderedField K] [DecidableEq K] {d n : ℕ}

/-- Explicit matrix inverse `(det A)⁻¹ • adjugate A`; over a field this agrees
with Mathlib's nonsingular inverse, and models Armadillo's `B.i()`. -/
def matInv (A : Mat K d) : Mat K d := (Matrix.det A)⁻¹ • Matrix.adjugate A

/-- The rank-two curvature correction of the source (line 80-82):
`Q + yy·yyᵀ / (yyᵀ·s) − Q·s·sᵀ·Q / (sᵀ·Q·s)` (the `stochasticHessian`). -/
def updatedCurvature (Q : Mat K d) (s yy : Vec K d) : Mat K d :=
  Q + (yy ⬝ᵥ s)⁻¹ • Matrix.vecMulVec yy yy -
    (s ⬝ᵥ (Q *ᵥ s))⁻¹ • Matrix.vecMulVec (Q *ᵥ s) (s ᵥ* Q)

/-- Initialization (source lines 41-60): every slice `t i` is set to the
freshly sampled `initialIterate` (not the caller's `iterate`), `y i` to the
gradient of component `i` at `initialIterate`, `Q i` to the identity; `B` is
the identity, `g` the mean of the initial gradients (`g += y.slice(i)` then
`g /= numFunctions`), `u = t.slice(0) = initialIterate`, and the iterate is
the caller-supplied starting point, untouched. -/
def init (f : Objective K d n) (initialIterate iterate0 : Vec K d) :
    IQNState K d n where
  y := fun i => f.gradient initialIterate i
  t := fun _ => initialIterate
  Q := fun _ => 1
  B := 1
  u := initialIterate
  g := (n : K)⁻¹ • ∑ i, f.gradient initialIterate i
  iterate := iterate0

/-- The trace of objective calls performed by initialization: one
`Gradient(initialIterate, i)` call per component. -/
def initTrace (initialIterate : Vec K d) : List (Event K d n) :=
  (List.finRange n).map (fun i => Event.gradCall initialIterate i)

/-- The body of the inner loop when the zero-norm check passes
(source lines 76-100): evaluate the gradient at the iterate, form the secant
pair, compute the `stochasticHessian`, fold the deltas into `B`, `u`, `g`,
commit the new triple into the tables, and apply the damped Newton step
`iterate ← stepSize · B⁻¹ · (u − g) + (1 − stepSize) · iterate` using the
already-updated aggregates. -/
def innerStepUpdate (f : Objective K d n) (stepSize : K) (st : IQNState K d n)
    (it : Fin n) : IQNState K d n × List (Event K d n) :=
  let gradient := f.gradient st.iterate it
  let s := st.iterate - st.t it
  let yy := gradient - st.y it
  let stochasticHessian := updatedCurvature (st.Q it) s yy
  let B := st.B + (n : K)⁻¹ • (stochasticHessian - st.Q it)
  let u := st.u + (n : K)⁻¹ • (stochasticHessian *ᵥ st.iterate -
    st.Q it *ᵥ st.t it)
  let g := st.g + (n : K)⁻¹ • (gradient - st.y it)
  ({ y := Function.update st.y it gradient
     t := Function.update st.t it st.iterate
     Q := Function.update st.Q it stochasticHessian
     B := B
     u := u
     g := g
     iterate := stepSize • (matInv B *ᵥ (u - g)) + (1 - stepSize) • st.iterate },
   [Event.gradCall st.iterate it])

/-- One inner step at component `it` (source lines 74-101): skipped entirely
when `norm(iterateVec − t.slice(it)) > 0` fails, i.e. when the iterate equals
the stored last point of `it` (exact arithmetic: the zero-norm check). -/
def innerStep (f : Objective K d n) (stepSize : K) (st : IQNState K d n)
    (it : Fin n) : IQNState K d n × List (Event K d n) :=
  if st.iterate = st.t it then (st, []) else innerStepUpdate f stepSize st it

/-- The component index visited at inner position `j` of a sweep
(source line 72): `it = (j + 1) % numFunctions`. -/
def selectedIndex (n : ℕ) [NeZero n] (j : ℕ) : Fin n :=
  ⟨(j + 1) % n, Nat.mod_lt _ (Nat.pos_of_ne_zero (NeZero.ne n))⟩

/-- One full sweep (source lines 69-102): the inner loop over
`j = 0, …, n−1`, visiting component `(j+1) % n` at position `j`. -/
def sweep [NeZero n] (f : Objective K d n) (stepSize : K)
    (st : IQNState K d n) : IQNState K d n × List (Event K d n) :=
  (List.range n).foldl
    (fun p j =>
      let q := innerStep f stepSize p.1 (selectedIndex n j)
      (q.1, p.2 ++ q.2))
    (st, [])

/-- The overall objective computed after a sweep (source lines 104-107):
the sum of `Evaluate(iterate, i)` over all components, divided by `n`. -/
def meanObjective (f : Objective K d n) (x : Vec K d) : K :=
  (∑ i, f.evaluate x i) / (n : K)

/-- The `Evaluate` calls performed when computing the overall objective. -/
def evalTrace (x : Vec K d) : List (Event K d n) :=
  (List.finRange n).map (fun i => Event.evalCall x i)

/-- The outer loop (source lines 67-126), by fuel = number of remaining
sweeps. Each round runs a sweep, computes the overall objective at the
resulting iterate, and then checks, in source order: non-finiteness
(`std::isnan || std::isinf`, abstracted as `nonFinite`) returning the value
with `numericalFailure`; then `overallObjective < tolerance` returning it
with `converged`; otherwise it continues. Exhausted fuel returns the last
computed `overallObjective` with `maxIterationsReached` (source line 131). -/
def optimizeLoop [NeZero n] (f : Objective K d n) (stepSize tolerance : K)
    (nonFinite : K → Bool) :
    ℕ → IQNState K d n → K → RunResult K d n
  | 0, st, overallObjective =>
      ⟨st, overallObjective, .maxIterationsReached, []⟩
  | fuel + 1, st, _ =>
      let p := sweep f stepSize st
      let overallObjective := meanObjective f p.1.iterate
      let tr := p.2 ++ evalTrace p.1.iterate
      if nonFinite overallObjective then
        ⟨p.1, overallObjective, .numericalFailure, tr⟩
      else if overallObjective < tolerance then
        ⟨p.1, overallObjective, .converged, tr⟩
      else
        let r := optimizeLoop f stepSize tolerance nonFinite fuel p.1
          overallObjective
        ⟨r.state, r.objective, r.outcome, tr ++ r.trace⟩

/-- Number of sweeps the `size_t` loop `for (i = 1; i != maxIterations; ++i)`
executes when no early return fires: the counter starts at 1 and stops on
reaching `maxIterations`, i.e. `maxIterations − 1` sweeps for every
`maxIterations ≥ 1`. (For `maxIterations = 0`, excluded by the configuration
contract `maxIterations ≥ 1` of the spec, the `size_t` counter would wrap and
run `2⁶⁴ − 1` sweeps; that case is not modelled.) -/
def sweepBudget (maxIterations : ℕ) : ℕ := maxIterations - 1

/-- `IQN::Optimize` (source lines 33-132): initialization against the freshly
sampled random point `initialIterate` (`arma::randn`, modelled as an explicit
argument), `overallObjective = 0`, then the outer loop. -/
def optimize [NeZero n] (f : Objective K d n) (stepSize : K)
    (maxIterations : ℕ) (tolerance : K) (nonFinite : K → Bool)
    (iterate0 initialIterate : Vec K d) : RunResult K d n :=
  let st0 := init f initialIterate iterate0
  let r := optimizeLoop f stepSize tolerance nonFinite
    (sweepBudget maxIterations) st0 0
  ⟨r.state, r.objective, r.outcome, initTrace initialIterate ++ r.trace⟩

/-- Aggregate consistency: the three incrementally maintained aggregates agree
with the averages over all `n` component records. -/
def aggregatesConsistent (st : IQNState K d n) : Prop :=
  st.B = (n : K)⁻¹ • ∑ i, st.Q i ∧
  st.g = (n : K)⁻¹ • ∑ i, st.y i ∧
  st.u = (n : K)⁻¹ • ∑ i, st.Q i *ᵥ st.t i

end Model

/-- Fixture objective over `ℚ` with `d = n = 1` used for concrete witnesses:
`gradient x 0 = x` and `evaluate x 0 = x 0`. -/
def testObj : Objective ℚ 1 1 where
  gradient := fun x _ => x
  evaluate := fun x _ => x 0

/-- The zero vector fixture. -/
def v0 : Vec ℚ 1 := fun _ => 0

/-- The all-ones vector fixture. -/
def v1 : Vec ℚ 1 := fun _ => 1

section Lemmas

variable {K : Type} [LinearOrderedField K] [DecidableEq K] {d n : ℕ}

lemma vecMulVec_mulVec_eq (v w s : Vec K d) :
    Matrix.vecMulVec v w *ᵥ s = (w ⬝ᵥ s) • v := by
  funext i
  simp only [Matrix.mulVec, Matrix.vecMulVec_apply, dotProduct, Pi.smul_apply,
    smul_eq_mul]
  rw [Finset.sum_mul]
  exact Finset.sum_congr rfl fun j _ => by ring

lemma transpose_vecMulVec_eq (v w : Vec K d) :
    (Matrix.vecMulVec v w)ᵀ = Matrix.vecMulVec w v := by
  funext i j
  simp [Matrix.transpose_apply, Matrix.vecMulVec_apply, mul_comm]

lemma matInv_mul_self {A : Mat K d} (h : A.det ≠ 0) : A * matInv A = 1 := by
  rw [matInv, Matrix.mul_smul, Matrix.mul_adjugate, smul_smul,
    inv_mul_cancel₀ h, one_smul]

lemma mulVec_matInv_cancel {A : Mat K d} (h : A.det ≠ 0) (v : Vec K d) :
    A *ᵥ (matInv A *ᵥ v) = v := by
  rw [Matrix.mulVec_mulVec, matInv_mul_self h, Matrix.one_mulVec]

lemma updatedCurvature_mulVec {Q : Mat K d} {s yy : Vec K d}
    (h1 : yy ⬝ᵥ s ≠ 0) (h2 : s ⬝ᵥ (Q *ᵥ s) ≠ 0) :
    updatedCurvature Q s yy *ᵥ s = yy := by
  rw [updatedCurvature, Matrix.sub_mulVec, Matrix.add_mulVec,
    Matrix.smul_mulVec_assoc, Matrix.smul_mulVec_assoc, vecMulVec_mulVec_eq,
    vecMulVec_mulVec_eq, smul_smul, smul_smul, inv_mul_cancel₀ h1,
    ← Matrix.dotProduct_mulVec, inv_mul_cancel₀ h2, one_smul, one_smul]
  abel

lemma vecMul_of_isSymm {Q : Mat K d} (hQ : Q.IsSymm) (s : Vec K d) :
    s ᵥ* Q = Q *ᵥ s := by
  rw [← Matrix.vecMul_transpose, hQ.eq]

lemma updatedCurvature_isSymm {Q : Mat K d} (hQ : Q.IsSymm) (s yy : Vec K d) :
    (updatedCurvature Q s yy).IsSymm := by
  have h1 : (Matrix.vecMulVec yy yy).IsSymm := transpose_vecMulVec_eq yy yy
  have h2 : (Matrix.vecMulVec (Q *ᵥ s) (s ᵥ* Q)).IsSymm := by
    rw [vecMul_of_isSymm hQ]
    exact transpose_vecMulVec_eq _ _
  exact ((hQ.add (h1.smul _)).sub (h2.smul _))

lemma innerStep_isSymm (f : Objective K d n) (α : K) (st : IQNState K d n)
    (it : Fin n) (hQ : ∀ i, (st.Q i).IsSymm) (hB : st.B.IsSymm) :
    (∀ i, ((innerStep f α st it).1.Q i).IsSymm) ∧
      ((innerStep f α st it).1.B).IsSymm := by
  by_cases heq : st.iterate = st.t it
  · simp only [innerStep, if_pos heq]
    exact ⟨hQ, hB⟩
  · simp only [innerStep, if_neg heq, innerStepUpdate]
    refine ⟨fun i => ?_, ?_⟩
    · by_cases hi : i = it
      · subst hi
        simp only [Function.update_same]
        exact updatedCurvature_isSymm (hQ i) _ _
      · simpa only [Function.update_noteq hi] using hQ i
    · exact hB.add (((updatedCurvature_isSymm (hQ it) _ _).sub (hQ it)).smul _)

lemma sum_update_sub {M : Type} [AddCommGroup M] (f : Fin n → M) (it : Fin n)
    (b : M) :
    ∑ i, Function.update f it b i = (∑ i, f i) + (b - f it) := by
  rw [Finset.sum_update_of_mem (Finset.mem_univ it),
    Finset.sum_eq_sum_diff_singleton_add (Finset.mem_univ it) f]
  abel

lemma update_mulVec_update (Q : Fin n → Mat K d) (t : Fin n → Vec K d)
    (it : Fin n) (H : Mat K d) (x : Vec K d) :
    (fun i => Function.update Q it H i *ᵥ Function.update t it x i) =
      Function.update (fun i => Q i *ᵥ t i) it (H *ᵥ x) := by
  funext i
  by_cases hi : i = it
  · subst hi; simp
  · simp [Function.update_noteq hi]

lemma aggregates_init (f : Objective K d n) (x0 z : Vec K d)
    (hn : (n : K) ≠ 0) : aggregatesConsistent (init f x0 z) := by
  have hone : (1 : Mat K d) = (n : K)⁻¹ • ∑ _i : Fin n, (1 : Mat K d) := by
    rw [Finset.sum_const, Finset.card_univ, Fintype.card_fin,
      ← Nat.cast_smul_eq_nsmul K, smul_smul, inv_mul_cancel₀ hn, one_smul]
  refine ⟨hone, rfl, ?_⟩
  show x0 = (n : K)⁻¹ • ∑ _i : Fin n, (1 : Mat K d) *ᵥ x0
  simp only [Matrix.one_mulVec]
  rw [Finset.sum_const, Finset.card_univ, Fintype.card_fin,
    ← Nat.cast_smul_eq_nsmul K, smul_smul, inv_mul_cancel₀ hn, one_smul]

lemma aggregates_innerStep (f : Objective K d n) (α : K)
    (st : IQNState K d n) (it : Fin n) (h : aggregatesConsistent st) :
    aggregatesConsistent (innerStep f α st it).1 := by
  by_cases heq : st.iterate = st.t it
  · simpa only [innerStep, if_pos heq] using h
  · obtain ⟨hB, hg, hu⟩ := h
    simp only [innerStep, if_neg heq, innerStepUpdate]
    refine ⟨?_, ?_, ?_⟩
    · show st.B + (n : K)⁻¹ • _ = (n : K)⁻¹ • ∑ i, Function.update st.Q it _ i
      rw [sum_update_sub, smul_add, ← hB]
    · show st.g + (n : K)⁻¹ • _ = (n : K)⁻¹ • ∑ i, Function.update st.y it _ i
      rw [sum_update_sub, smul_add, ← hg]
    · show st.u + (n : K)⁻¹ • _ = (n : K)⁻¹ •
        ∑ i, Function.update st.Q it _ i *ᵥ Function.update st.t it _ i
      rw [show (fun i => Function.update st.Q it
            (updatedCurvature (st.Q it) (st.iterate - st.t it)
              (f.gradient st.iterate it - st.y it)) i *ᵥ
            Function.update st.t it st.iterate i) =
          Function.update (fun i => st.Q i *ᵥ st.t i) it
            (updatedCurvature (st.Q it) (st.iterate - st.t it)
              (f.gradient st.iterate it - st.y it) *ᵥ st.iterate) from
        update_mulVec_update _ _ _ _ _]
      rw [sum_update_sub, smul_add, ← hu]

lemma foldl_innerStep_pres [NeZero n] (f : Objective K d n) (α : K)
    (P : IQNState K d n × List (Event K d n) → Prop)
    (hP : ∀ p j, P p →
      P (let q := innerStep f α p.1 (selectedIndex n j); (q.1, p.2 ++ q.2)))
    (l : List ℕ) :
    ∀ p, P p → P (l.foldl
      (fun p j =>
        let q := innerStep f α p.1 (selectedIndex n j)
        (q.1, p.2 ++ q.2)) p) := by
  induction l with
  | nil => exact fun p h => h
  | cons a l ih => exact fun p h => ih _ (hP p a h)

lemma aggregates_sweep [NeZero n] (f : Objective K d n) (α : K)
    (st : IQNState K d n) (h : aggregatesConsistent st) :
    aggregatesConsistent (sweep f α st).1 :=
  foldl_innerStep_pres f α (fun p => aggregatesConsistent p.1)
    (fun p j hp => aggregates_innerStep f α p.1 (selectedIndex n j) hp)
    (List.range n) (st, []) h

set_option maxRecDepth 4000 in
lemma aggregates_loop [NeZero n] (f : Objective K d n) (α tol : K)
    (nf : K → Bool) :
    ∀ (fuel : ℕ) (st : IQNState K d n) (obj : K), aggregatesConsistent st →
      aggregatesConsistent (optimizeLoop f α tol nf fuel st obj).state := by
  intro fuel
  induction fuel with
  | zero => exact fun st obj h => h
  | succ m ih =>
      intro st obj h
      simp only [optimizeLoop]
      split_ifs
      · exact aggregates_sweep f α st h
      · exact aggregates_sweep f α st h
      · exact ih _ _ (aggregates_sweep f α st h)

end Lemmas

set_option maxRecDepth 8000 in
/-- C1: after initialization, and preserved by every committed inner step
(hence by every sweep and by a whole run), the aggregates equal the averages
over the component records: `B = (1/n)·Σ Q i`, `g = (1/n)·Σ y i`,
`u = (1/n)·Σ Q i ·ᵥ t i`, even though they are maintained only by adding
`(1/n)·(new − old)` deltas and never recomputed from scratch. -/
theorem iqn_aggregate_consistency {K : Type} [LinearOrderedField K]
    [DecidableEq K] {d n : ℕ} [NeZero n] (f : Objective K d n) (α tol : K)
    (nf : K → Bool) (x0 z : Vec K d) (m : ℕ) (hn : (n : K) ≠ 0) :
    aggregatesConsistent (init f x0 z) ∧
    (∀ (st : IQNState K d n) (it : Fin n), aggregatesConsistent st →
      aggregatesConsistent (innerStep f α st it).1) ∧
    (∀ st : IQNState K d n, aggregatesConsistent st →
      aggregatesConsistent (sweep f α st).1) ∧
    aggregatesConsistent (optimize f α m tol nf z x0).state := by
  refine ⟨aggregates_init f x0 z hn,
    fun st it h => aggregates_innerStep f α st it h,
    fun st h => aggregates_sweep f α st h, ?_⟩
  show aggregatesConsistent
    (optimizeLoop f α tol nf (sweepBudget m) (init f x0 z) 0).state
  exact aggregates_loop f α tol nf _ _ _ (aggregates_init f x0 z hn)

/-- Witness for C1 at a concrete instance (`K = ℚ`, `d = n = 1`). -/
theorem iqn_aggregate_consistency_witness :
    ((1 : ℕ) : ℚ) ≠ 0 ∧ aggregatesConsistent (init testObj v0 v1) :=
  ⟨by norm_num,
    (iqn_aggregate_consistency testObj 1 0 (fun _ => false) v0 v1 1
      (by norm_num)).1⟩

/-- C2: with secant pair `s = iterate − lastPoint` and
`yy = newGradient − lastGradient`, whenever both denominators `yyᵀ·s` and
`sᵀ·Q·s` are nonzero, the rank-two update satisfies the secant equation
`Qnew ·ᵥ s = yy`; `Qnew` is symmetric whenever `Q` is; and consequently an
inner step keeps every stored local curvature matrix and the aggregate
curvature symmetric. -/
theorem iqn_secant_update {K : Type} [LinearOrderedField K] [DecidableEq K]
    {d n : ℕ} (Q : Mat K d) (s yy : Vec K d)
    (h1 : yy ⬝ᵥ s ≠ 0) (h2 : s ⬝ᵥ (Q *ᵥ s) ≠ 0) :
    updatedCurvature Q s yy *ᵥ s = yy ∧
    (Q.IsSymm → (updatedCurvature Q s yy).IsSymm) ∧
    ∀ (f : Objective K d n) (α : K) (st : IQNState K d n) (it : Fin n),
      (∀ i, (st.Q i).IsSymm) → st.B.IsSymm →
      (∀ i, ((innerStep f α st it).1.Q i).IsSymm) ∧
        ((innerStep f α st it).1.B).IsSymm :=
  ⟨updatedCurvature_mulVec h1 h2,
    fun hQ => updatedCurvature_isSymm hQ s yy,
    fun f α st it hQ hB => innerStep_isSymm f α st it hQ hB⟩

/-- Witness for C2 at a concrete instance: `d = 1`, `Q = 1`, `s = 2`,
`yy = 3`, denominators `6` and `4`. -/
theorem iqn_secant_update_witness :
    ((fun _ => 3 : Vec ℚ 1) ⬝ᵥ (fun _ => 2 : Vec ℚ 1) ≠ 0) ∧
    updatedCurvature (1 : Mat ℚ 1) (fun _ => 2) (fun _ => 3) *ᵥ
      (fun _ => 2) = (fun _ => 3) :=
  ⟨by norm_num [dotProduct, Fin.sum_univ_one],
    (iqn_secant_update (n := 1) (1 : Mat ℚ 1) (fun _ => 2) (fun _ => 3)
      (by norm_num [dotProduct, Fin.sum_univ_one])
      (by norm_num [dotProduct, Fin.sum_univ_one, Matrix.one_mulVec])).1⟩

/-- C6: when the current iterate equals the stored last point of the selected
component (the zero-norm check), the inner step is skipped entirely: no
gradient evaluation is recorded, no table or aggregate is mutated, and the
iterate is unchanged — the full state after the step equals the state before. -/
theorem iqn_skip_idempotence {K : Type} [LinearOrderedField K] [DecidableEq K]
    {d n : ℕ} (f : Objective K d n) (α : K) (st : IQNState K d n) (it : Fin n)
    (h : st.iterate = st.t it) :
    innerStep f α st it = (st, []) := by
  simp [innerStep, h]

/-- Witness for C6: the freshly initialized state with coinciding points
skips the step. -/
theorem iqn_skip_idempotence_witness :
    (init testObj v1 v1).iterate = (init testObj v1 v1).t 0 ∧
    innerStep testObj 1 (init testObj v1 v1) 0 = (init testObj v1 v1, []) :=
  ⟨rfl, iqn_skip_idempotence testObj 1 (init testObj v1 v1) 0 rfl⟩

/-- C7: within a sweep, inner position `j` visits component `(j+1) mod n`:
positions `0, …, n−2` visit `1, …, n−1` in order, the last position visits
`0`, and the visiting map is a bijection of `Fin n`, so every component index
is visited exactly once per sweep. -/
theorem iqn_cyclic_order (n : ℕ) [NeZero n] :
    (∀ j : ℕ, j + 1 < n → (selectedIndex n j).val = j + 1) ∧
    (selectedIndex n (n - 1)).val = 0 ∧
    Function.Bijective (fun j : Fin n => selectedIndex n j.val) ∧
    ∀ k : Fin n, ∃! j : Fin n, selectedIndex n j.val = k := by
  have hpos : 0 < n := Nat.pos_of_ne_zero (NeZero.ne n)
  have hfun : (fun j : Fin n => selectedIndex n j.val) = fun j => j + 1 := by
    funext j
    apply Fin.ext
    show (j.val + 1) % n = (j + 1 : Fin n).val
    rw [Fin.val_add, Fin.val_one', Nat.add_mod j.val 1 n,
      Nat.mod_eq_of_lt j.isLt]
  have hbij : Function.Bijective (fun j : Fin n => selectedIndex n j.val) := by
    rw [hfun]
    exact (Equiv.addRight (1 : Fin n)).bijective
  refine ⟨fun j hj => ?_, ?_, hbij, fun k => hbij.existsUnique k⟩
  · exact Nat.mod_eq_of_lt hj
  · show (n - 1 + 1) % n = 0
    rw [Nat.sub_add_cancel hpos, Nat.mod_self]

/-- Witness for C7 at `n = 3`: position 0 visits component 1 and the last
position visits component 0. -/
theorem iqn_cyclic_order_witness :
    (0 + 1 < 3 ∧ (selectedIndex 3 0).val = 0 + 1) ∧
    (selectedIndex 3 (3 - 1)).val = 0 :=
  ⟨⟨by decide, (iqn_cyclic_order 3).1 0 (by decide)⟩,
    (iqn_cyclic_order 3).2.1⟩

/-- C8: on every inner step that performs an update, the new iterate equals
`stepSize • B⁻¹ (u − g) + (1 − stepSize) • (previous iterate)` where `B`,
`u`, `g` are the aggregates already updated with this component's delta;
when that updated aggregate curvature is invertible the step solves
`B (iterate' − (1 − stepSize) • old) = stepSize • (u − g)`, and for
`stepSize = 1` the new iterate is exactly the undamped Newton step
`B⁻¹ (u − g)`. -/
theorem iqn_damped_newton_step {K : Type} [LinearOrderedField K]
    [DecidableEq K] {d n : ℕ} (f : Objective K d n) (α : K)
    (st : IQNState K d n) (it : Fin n) (h : st.iterate ≠ st.t it) :
    (innerStep f α st it).1.iterate =
      α • (matInv (innerStep f α st it).1.B *ᵥ
        ((innerStep f α st it).1.u - (innerStep f α st it).1.g)) +
      (1 - α) • st.iterate ∧
    (((innerStep f α st it).1.B).det ≠ 0 →
      (innerStep f α st it).1.B *ᵥ
          ((innerStep f α st it).1.iterate - (1 - α) • st.iterate) =
        α • ((innerStep f α st it).1.u - (innerStep f α st it).1.g)) ∧
    (α = 1 → (innerStep f α st it).1.iterate =
      matInv (innerStep f α st it).1.B *ᵥ
        ((innerStep f α st it).1.u - (innerStep f α st it).1.g)) := by
  refine ⟨?_, ?_, ?_⟩
  · simp only [innerStep, if_neg h, innerStepUpdate]
  · intro hdet
    simp only [innerStep, if_neg h, innerStepUpdate] at hdet ⊢
    rw [add_sub_cancel_right, Matrix.mulVec_smul, mulVec_matInv_cancel hdet]
  · intro hα
    subst hα
    simp only [innerStep, if_neg h, innerStepUpdate]
    rw [sub_self, one_smul, zero_smul, add_zero]

/-- Witness for C8: an updating step from the initialized state with distinct
random point and caller iterate. -/
theorem iqn_damped_newton_step_witness :
    (init testObj v0 v1).iterate ≠ (init testObj v0 v1).t 0 ∧
    (innerStep testObj 1 (init testObj v0 v1) 0).1.iterate =
      (1 : ℚ) • (matInv (innerStep testObj 1 (init testObj v0 v1) 0).1.B *ᵥ
        ((innerStep testObj 1 (init testObj v0 v1) 0).1.u -
          (innerStep testObj 1 (init testObj v0 v1) 0).1.g)) +
      ((1 : ℚ) - 1) • (init testObj v0 v1).iterate :=
  ⟨by decide,
    (iqn_damped_newton_step testObj 1 (init testObj v0 v1) 0 (by decide)).1⟩


lemma numEvalCalls_append {K : Type} {d n : ℕ} (a b : List (Event K d n)) :
    numEvalCalls (a ++ b) = numEvalCalls a + numEvalCalls b := by
  simp [numEvalCalls, List.filter_append]

lemma numGradCalls_append {K : Type} {d n : ℕ} (a b : List (Event K d n)) :
    numGradCalls (a ++ b) = numGradCalls a + numGradCalls b := by
  simp [numGradCalls, List.filter_append]

lemma numGradCalls_initTrace {K : Type} {d n : ℕ} (x0 : Vec K d) :
    numGradCalls (initTrace (n := n) x0) = n := by
  simp [numGradCalls, initTrace, List.filter_map, Function.comp_def,
    Event.isGrad]

lemma numEvalCalls_initTrace {K : Type} {d n : ℕ} (x0 : Vec K d) :
    numEvalCalls (initTrace (n := n) x0) = 0 := by
  simp [numEvalCalls, initTrace, List.filter_map, Function.comp_def,
    Event.isEval]

lemma numEvalCalls_evalTrace {K : Type} {d n : ℕ} (x : Vec K d) :
    numEvalCalls (evalTrace (n := n) x) = n := by
  simp [numEvalCalls, evalTrace, List.filter_map, Function.comp_def,
    Event.isEval]

lemma numEvalCalls_innerStep {K : Type} [LinearOrderedField K] [DecidableEq K]
    {d n : ℕ} (f : Objective K d n) (α : K) (st : IQNState K d n)
    (it : Fin n) : numEvalCalls (innerStep f α st it).2 = 0 := by
  by_cases h : st.iterate = st.t it
  · simp [innerStep, h, numEvalCalls]
  · simp [innerStep, h, innerStepUpdate, numEvalCalls, Event.isEval]

lemma numEvalCalls_sweep {K : Type} [LinearOrderedField K] [DecidableEq K]
    {d n : ℕ} [NeZero n] (f : Objective K d n) (α : K)
    (st : IQNState K d n) : numEvalCalls (sweep f α st).2 = 0 := by
  refine foldl_innerStep_pres f α (fun p => numEvalCalls p.2 = 0) ?_
    (List.range n) (st, []) rfl
  intro p j hp
  show numEvalCalls (p.2 ++ (innerStep f α p.1 (selectedIndex n j)).2) = 0
  rw [numEvalCalls_append, hp, numEvalCalls_innerStep]

lemma loop_maxIter_evalCount {K : Type} [LinearOrderedField K] [DecidableEq K]
    {d n : ℕ} [NeZero n] (f : Objective K d n) (α tol : K) (nf : K → Bool) :
    ∀ (fuel : ℕ) (st : IQNState K d n) (obj : K),
      (optimizeLoop f α tol nf fuel st obj).outcome =
          Outcome.maxIterationsReached →
      numEvalCalls (optimizeLoop f α tol nf fuel st obj).trace = fuel * n := by
  intro fuel
  induction fuel with
  | zero => intro st obj _; simp [optimizeLoop, numEvalCalls]
  | succ m ih =>
      intro st obj h
      simp only [optimizeLoop] at h ⊢
      split_ifs with h1 h2
      · rw [if_pos h1] at h; cases h
      · rw [if_neg h1, if_pos h2] at h; cases h
      · rw [if_neg h1, if_neg h2] at h
        rw [numEvalCalls_append, numEvalCalls_append, numEvalCalls_sweep,
          numEvalCalls_evalTrace, ih _ _ h]
        ring

lemma loop_objective_eq {K : Type} [LinearOrderedField K] [DecidableEq K]
    {d n : ℕ} [NeZero n] (f : Objective K d n) (α tol : K) (nf : K → Bool) :
    ∀ (fuel : ℕ), 1 ≤ fuel → ∀ (st : IQNState K d n) (obj : K),
      (optimizeLoop f α tol nf fuel st obj).objective =
        meanObjective f (optimizeLoop f α tol nf fuel st obj).state.iterate := by
  intro fuel
  induction fuel with
  | zero => intro h; cases h
  | succ m ih =>
      intro _ st obj
      simp only [optimizeLoop]
      split_ifs with h1 h2
      · rfl
      · rfl
      · cases m with
        | zero => rfl
        | succ k => exact ih (Nat.le_add_left 1 k) _ _

/-- C4: before the first sweep, every component record holds the freshly
sampled random starting point (not the caller-supplied iterate), the identity
curvature, and the gradient of its component at that random point, with
exactly `n` gradient evaluations and no `Evaluate` call recorded; the
aggregates are set to the mean gradient, the identity matrix, and the random
starting point as a vector, while the caller's iterate stays as supplied (so
when the random point differs from it, every stored last point differs from
the iterate). -/
theorem iqn_initialization {K : Type} [LinearOrderedField K] [DecidableEq K]
    {d n : ℕ} (f : Objective K d n) (x0 z : Vec K d) (hne : x0 ≠ z) :
    (∀ i, (init f x0 z).t i = x0) ∧
    (∀ i, (init f x0 z).Q i = 1) ∧
    (∀ i, (init f x0 z).y i = f.gradient x0 i) ∧
    (init f x0 z).g = (n : K)⁻¹ • ∑ i, f.gradient x0 i ∧
    (init f x0 z).B = 1 ∧
    (init f x0 z).u = x0 ∧
    (init f x0 z).iterate = z ∧
    (∀ i : Fin n, (init f x0 z).t i ≠ (init f x0 z).iterate) ∧
    numGradCalls (initTrace (n := n) x0) = n ∧
    numEvalCalls (initTrace (n := n) x0) = 0 :=
  ⟨fun _ => rfl, fun _ => rfl, fun _ => rfl, rfl, rfl, rfl, rfl,
    fun _ => hne, numGradCalls_initTrace x0, numEvalCalls_initTrace x0⟩

/-- Witness for C4: the random point `v0` differs from the caller iterate
`v1`, and the aggregate Hessian-variable product equals the random point. -/
theorem iqn_initialization_witness :
    v0 ≠ v1 ∧ (init testObj v0 v1).u = v0 :=
  ⟨by decide, (iqn_initialization testObj v0 v1 (by decide)).2.2.2.2.2.1⟩

lemma optimize_one_eq {K : Type} [LinearOrderedField K] [DecidableEq K]
    {d n : ℕ} [NeZero n] (f : Objective K d n) (α tol : K) (nf : K → Bool)
    (z x0 : Vec K d) :
    optimize f α 1 tol nf z x0 =
      ⟨init f x0 z, 0, Outcome.maxIterationsReached, initTrace x0⟩ := by
  have h : optimize f α 1 tol nf z x0 =
      ⟨init f x0 z, 0, Outcome.maxIterationsReached, initTrace x0 ++ []⟩ := rfl
  rw [h, List.append_nil]

/-- C10: with `maxIterations = 1`, the run performs zero sweeps, zero inner
steps and zero `Evaluate` calls, returns the initial `overallObjective = 0`
with MAX_ITERATIONS_REACHED, leaves the caller's iterate unchanged, and its
only interaction with the objective is the `n` `Gradient` calls recorded at
initialization. -/
theorem iqn_max_iterations_one {K : Type} [LinearOrderedField K]
    [DecidableEq K] {d n : ℕ} [NeZero n] (f : Objective K d n) (α tol : K)
    (nf : K → Bool) (z x0 : Vec K d) :
    optimize f α 1 tol nf z x0 =
      ⟨init f x0 z, 0, Outcome.maxIterationsReached, initTrace x0⟩ ∧
    (optimize f α 1 tol nf z x0).objective = 0 ∧
    (optimize f α 1 tol nf z x0).state.iterate = z ∧
    numEvalCalls (optimize f α 1 tol nf z x0).trace = 0 ∧
    numGradCalls (optimize f α 1 tol nf z x0).trace = n := by
  have h := optimize_one_eq f α tol nf z x0
  refine ⟨h, ?_, ?_, ?_, ?_⟩ <;> rw [h]
  · rfl
  · exact numEvalCalls_initTrace x0
  · exact numGradCalls_initTrace x0

/-- Witness for C10 at the concrete fixture. -/
theorem iqn_max_iterations_one_witness :
    (optimize testObj 1 1 0 (fun _ => false) v1 v0).objective = 0 :=
  (iqn_max_iterations_one testObj 1 0 (fun _ => false) v1 v0).2.1

/-- C3 counterexample: with `maxIterations = 1` and `tolerance = 0` (and the
non-finiteness check never firing) the run terminates with
MAX_ITERATIONS_REACHED after zero sweeps, not after one sweep of `n = 1`
inner steps: the number of recorded `Evaluate` calls is `0`, not the `1 · 1`
a single full sweep would record. -/
theorem iqn_sweep_budget_cex :
    (optimize testObj 1 1 0 (fun _ => false) v1 v0).outcome =
      Outcome.maxIterationsReached ∧
    numEvalCalls (optimize testObj 1 1 0 (fun _ => false) v1 v0).trace = 0 ∧
    numEvalCalls (optimize testObj 1 1 0 (fun _ => false) v1 v0).trace ≠
      1 * 1 := by
  have h := optimize_one_eq testObj 1 0 (fun _ => false) v1 v0
  have he : numEvalCalls (optimize testObj 1 1 0 (fun _ => false) v1 v0).trace
      = 0 := by
    rw [h]; exact numEvalCalls_initTrace v0
  refine ⟨by rw [h], he, by rw [he]; decide⟩

/-- C3 (amended): whenever `Optimize` returns MAX_ITERATIONS_REACHED it has
performed exactly `maxIterations − 1` full sweeps — the source counter runs
from 1 while `i != maxIterations` — each sweep recording exactly `n`
`Evaluate` calls; in particular `maxIterations = 1` yields zero sweeps. -/
theorem iqn_sweep_budget {K : Type} [LinearOrderedField K] [DecidableEq K]
    {d n : ℕ} [NeZero n] (f : Objective K d n) (α tol : K) (nf : K → Bool)
    (x0 z : Vec K d) (m : ℕ)
    (h : (optimize f α m tol nf z x0).outcome = Outcome.maxIterationsReached) :
    numEvalCalls (optimize f α m tol nf z x0).trace = (m - 1) * n := by
  have ho : (optimize f α m tol nf z x0).outcome =
      (optimizeLoop f α tol nf (sweepBudget m) (init f x0 z) 0).outcome := rfl
  have ht : (optimize f α m tol nf z x0).trace =
      initTrace x0 ++
        (optimizeLoop f α tol nf (sweepBudget m) (init f x0 z) 0).trace := rfl
  rw [ht, numEvalCalls_append, numEvalCalls_initTrace,
    loop_maxIter_evalCount f α tol nf _ _ _ (ho ▸ h), zero_add]
  rfl

/-- Witness for C3 (amended) at `maxIterations = 1`: zero sweeps, zero
`Evaluate` calls. -/
theorem iqn_sweep_budget_witness :
    (optimize testObj 1 1 0 (fun _ => false) v1 v0).outcome =
      Outcome.maxIterationsReached ∧
    numEvalCalls (optimize testObj 1 1 0 (fun _ => false) v1 v0).trace =
      (1 - 1) * 1 := by
  have h : (optimize testObj 1 1 0 (fun _ => false) v1 v0).outcome =
      Outcome.maxIterationsReached := by
    rw [optimize_one_eq]
  exact ⟨h, iqn_sweep_budget testObj 1 0 (fun _ => false) v0 v1 1 h⟩

/-- C5: after each sweep the overall objective is the mean of the `n`
component evaluations at the iterate resulting from that sweep
(`meanObjective`), and the checks run in source order: a non-finite value is
returned as-is with NUMERICAL_FAILURE; only otherwise is a value strictly
below the tolerance returned with CONVERGED — so a non-finite objective is
never reported as convergence even when it compares below the tolerance —
and whenever at least one sweep has run, the scalar the loop returns is
exactly the mean objective computed in its final sweep. -/
theorem iqn_termination_checks {K : Type} [LinearOrderedField K]
    [DecidableEq K] {d n : ℕ} [NeZero n] (f : Objective K d n) (α tol : K)
    (nf : K → Bool) (r : ℕ) (st : IQNState K d n) (obj : K) :
    (nf (meanObjective f (sweep f α st).1.iterate) = true →
      optimizeLoop f α tol nf (r + 1) st obj =
        ⟨(sweep f α st).1, meanObjective f (sweep f α st).1.iterate,
          Outcome.numericalFailure,
          (sweep f α st).2 ++ evalTrace (sweep f α st).1.iterate⟩) ∧
    (nf (meanObjective f (sweep f α st).1.iterate) = false →
      meanObjective f (sweep f α st).1.iterate < tol →
      optimizeLoop f α tol nf (r + 1) st obj =
        ⟨(sweep f α st).1, meanObjective f (sweep f α st).1.iterate,
          Outcome.converged,
          (sweep f α st).2 ++ evalTrace (sweep f α st).1.iterate⟩) ∧
    (nf (meanObjective f (sweep f α st).1.iterate) = true →
      (optimizeLoop f α tol nf (r + 1) st obj).outcome ≠
        Outcome.converged) ∧
    (∀ (fuel : ℕ) (st₀ : IQNState K d n) (obj₀ : K), 1 ≤ fuel →
      (optimizeLoop f α tol nf fuel st₀ obj₀).objective =
        meanObjective f (optimizeLoop f α tol nf fuel st₀ obj₀).state.iterate)
    := by
  refine ⟨?_, ?_, ?_, fun fuel st₀ obj₀ hf => loop_objective_eq f α tol nf
    fuel hf st₀ obj₀⟩
  · intro h
    simp only [optimizeLoop]
    rw [if_pos h]
  · intro h hlt
    simp only [optimizeLoop]
    rw [if_neg (by simp [h]), if_pos hlt]
  · intro h
    simp only [optimizeLoop]
    rw [if_pos h]
    simp

/-- Witness for C5: with an always-true non-finiteness predicate the loop
reports NUMERICAL_FAILURE and never CONVERGED, even at tolerance 0. -/
theorem iqn_termination_checks_witness :
    ((fun _ => true : ℚ → Bool)
      (meanObjective testObj (sweep testObj 1 (init testObj v0 v1)).1.iterate)
        = true) ∧
    (optimizeLoop testObj 1 0 (fun _ => true) (0 + 1) (init testObj v0 v1)
      0).outcome ≠ Outcome.converged :=
  ⟨rfl,
    (iqn_termination_checks testObj 1 0 (fun _ => true) 0 (init testObj v0 v1)
      0).2.2.1 rfl⟩
